import Mathlib

/-!
Verification of the sdb debugger core (process control, software breakpoints,
watchpoints, register file, memory I/O) against its specification.

The development is a shallow embedding of the C++ sources under src/:
machine words are natural numbers reduced modulo powers of two where the
source relies on fixed-width arithmetic, fallible operations return Except,
and the ptrace/waitpid boundary is passed in explicitly as input data
(success flags and reported statuses), since those values come from the
operating system and not from the program under verification.
-/

/-- Byte i (little endian) of a machine word, as in the source's byte-wise
view of a ptrace PEEKDATA result (src/src/breakpoint_site.cpp). -/
def byteAt (w i : Nat) : Nat := (w >>> (8 * i)) &&& 0xff

/-- Little-endian byte list of the low n bytes of a word, mirroring the
memcpy-based to_byte128 / from_bytes_to views in include/libsdb/bit.hpp. -/
def natToBytesLE (w n : Nat) : List Nat := (List.range n).map (fun i => byteAt w i)

/-- The INT3 opcode constant SOFTWARE_BREAKPOINT_INSTRUCTION from
src/src/breakpoint_site.cpp. -/
def SOFTWARE_BREAKPOINT_INSTRUCTION : Nat := 0xcc

/-- The uint64 value of the C++ expression (~0xff): all bits 8..63 set.
Used by enable/disable to clear the low byte of the fetched word. -/
def HIGH_BYTES_MASK : Nat := 0xFFFFFFFFFFFFFF00

/-- State of sdb::breakpoint_site (include/libsdb/breakpoint_site.hpp):
id, address, enabled flag and the saved original low byte. The back
pointer to the process only supplies the pid for ptrace and is dropped. -/
structure breakpoint_site where
  m_id : Nat
  m_address : Nat
  m_is_enabled : Bool
  m_saved_data : Nat
deriving DecidableEq, Repr

/-- sdb::breakpoint_site::enable (src/src/breakpoint_site.cpp, lines 19-38)
acting on the 8-byte word at the site's address: if already enabled do
nothing; otherwise save the low byte of the fetched word and write the word
back with its low byte replaced by INT3. Returns the updated site and the
word written back to the inferior. The ptrace transport itself (which can
only fail, not alter the data) is handled at the call sites. -/
def breakpoint_site.enable (bp : breakpoint_site) (data : Nat) : breakpoint_site × Nat :=
  if bp.m_is_enabled then (bp, data)
  else
    let saved := data &&& 0xff
    let data_with_int3 := (data &&& HIGH_BYTES_MASK) ||| SOFTWARE_BREAKPOINT_INSTRUCTION
    ({ bp with m_is_enabled := true, m_saved_data := saved }, data_with_int3)

/-- sdb::breakpoint_site::disable (src/src/breakpoint_site.cpp, lines 40-55)
acting on the 8-byte word currently at the site's address: if not enabled do
nothing; otherwise write the word back with its low byte replaced by the
saved byte and clear the enabled flag. -/
def breakpoint_site.disable (bp : breakpoint_site) (data : Nat) : breakpoint_site × Nat :=
  if !bp.m_is_enabled then (bp, data)
  else
    let restored := (data &&& HIGH_BYTES_MASK) ||| bp.m_saved_data
    ({ bp with m_is_enabled := false }, restored)

theorem testBit_high_bytes_mask (i : Nat) :
    Nat.testBit HIGH_BYTES_MASK i = (decide (8 ≤ i) && decide (i < 64)) := by
  have h : HIGH_BYTES_MASK = (2 ^ 56 - 1) <<< 8 := by
    rw [Nat.shiftLeft_eq]; norm_num [HIGH_BYTES_MASK]
  rw [h, Nat.testBit_shiftLeft, Nat.testBit_two_pow_sub_one]
  rcases Nat.lt_or_ge i 8 with hlt | hge
  · simp [Nat.not_le_of_lt hlt, hlt]
  · have : i - 8 < 56 ↔ i < 64 := by omega
    simp [hge, Nat.le_of_lt, this]

theorem testBit_byte_lit_high {b i : Nat} (hb : b < 256) (hi : 8 ≤ i) :
    Nat.testBit b i = false := by
  refine Nat.testBit_lt_two_pow (lt_of_lt_of_le hb ?_)
  calc (256 : Nat) = 2 ^ 8 := by norm_num
  _ ≤ 2 ^ i := Nat.pow_le_pow_right (by norm_num) hi

theorem byteAt_zero_set {w b : Nat} (hb : b < 256) :
    byteAt ((w &&& HIGH_BYTES_MASK) ||| b) 0 = b := by
  apply Nat.eq_of_testBit_eq
  intro j
  simp only [byteAt, Nat.mul_zero, Nat.shiftRight_zero]
  rcases Nat.lt_or_ge j 8 with hj | hj
  · have h255 : Nat.testBit 0xff j = true := by
      have : (0xff : Nat) = 2 ^ 8 - 1 := by norm_num
      rw [this, Nat.testBit_two_pow_sub_one]
      simp [hj]
    simp [Nat.testBit_and, Nat.testBit_or, h255, testBit_high_bytes_mask,
      Nat.not_le_of_lt hj]
  · have h255 : Nat.testBit 0xff j = false := testBit_byte_lit_high (by norm_num) hj
    simp [Nat.testBit_and, h255, testBit_byte_lit_high hb hj]

theorem byteAt_high_set {w b : Nat} (hb : b < 256) {i : Nat} (h1 : 1 ≤ i) (h7 : i ≤ 7) :
    byteAt ((w &&& HIGH_BYTES_MASK) ||| b) i = byteAt w i := by
  apply Nat.eq_of_testBit_eq
  intro j
  simp only [byteAt, Nat.testBit_and, Nat.testBit_shiftRight]
  rcases Nat.lt_or_ge j 8 with hj | hj
  · have hmask : Nat.testBit HIGH_BYTES_MASK (8 * i + j) = true := by
      rw [testBit_high_bytes_mask]
      have : 8 ≤ 8 * i + j ∧ 8 * i + j < 64 := by omega
      simp [this.1, this.2]
    have hbj : Nat.testBit b (8 * i + j) = false :=
      testBit_byte_lit_high hb (by omega)
    simp [Nat.testBit_or, Nat.testBit_and, hmask, hbj]
  · have h255 : Nat.testBit 0xff j = false := testBit_byte_lit_high (by norm_num) hj
    simp [h255]

theorem byteAt_and_mask_low (w : Nat) : byteAt (w &&& 0xff) 0 = byteAt w 0 := by
  apply Nat.eq_of_testBit_eq
  intro j
  simp only [byteAt, Nat.mul_zero, Nat.shiftRight_zero, Nat.testBit_and]
  rcases Nat.lt_or_ge j 8 with hj | hj
  · have h255 : Nat.testBit 0xff j = true := by
      have : (0xff : Nat) = 2 ^ 8 - 1 := by norm_num
      rw [this, Nat.testBit_two_pow_sub_one]
      simp [hj]
    simp [h255]
  · have h255 : Nat.testBit 0xff j = false := testBit_byte_lit_high (by norm_num) hj
    simp [h255]

theorem and_ff_lt (w : Nat) : w &&& 0xff < 256 := by
  have : (0xff : Nat) = 2 ^ 8 - 1 := by norm_num
  rw [this, Nat.and_pow_two_sub_one_eq_mod]
  exact Nat.mod_lt _ (by norm_num)

/-- C3: for every software breakpoint and every initial 8-byte word at its
address, enable() sets the byte at the address to 0xCC leaving the other
seven bytes of the word unchanged; a subsequent disable() restores the byte
at the address bit-identical to its pre-enable value (the other bytes
again unchanged); enable() on an already-enabled site and disable() on an
already-disabled site change nothing. -/
theorem breakpoint_enable_disable_byte_level (bp : breakpoint_site) (w : Nat)
    (h : bp.m_is_enabled = false) :
    byteAt (bp.enable w).2 0 = 0xCC ∧
    (∀ i, 1 ≤ i → i ≤ 7 → byteAt (bp.enable w).2 i = byteAt w i) ∧
    (bp.enable w).1.m_is_enabled = true ∧
    byteAt (((bp.enable w).1.disable (bp.enable w).2)).2 0 = byteAt w 0 ∧
    (∀ i, 1 ≤ i → i ≤ 7 →
      byteAt (((bp.enable w).1.disable (bp.enable w).2)).2 i = byteAt w i) ∧
    (∀ bp2 : breakpoint_site, ∀ w2, bp2.m_is_enabled = true →
      bp2.enable w2 = (bp2, w2)) ∧
    (∀ bp2 : breakpoint_site, ∀ w2, bp2.m_is_enabled = false →
      bp2.disable w2 = (bp2, w2)) := by
  have hcc : SOFTWARE_BREAKPOINT_INSTRUCTION < 256 := by norm_num [SOFTWARE_BREAKPOINT_INSTRUCTION]
  have henable : bp.enable w =
      ({ bp with m_is_enabled := true, m_saved_data := w &&& 0xff },
        (w &&& HIGH_BYTES_MASK) ||| SOFTWARE_BREAKPOINT_INSTRUCTION) := by
    simp [breakpoint_site.enable, h]
  have hdisable : ((bp.enable w).1.disable (bp.enable w).2).2 =
      (((w &&& HIGH_BYTES_MASK) ||| SOFTWARE_BREAKPOINT_INSTRUCTION) &&& HIGH_BYTES_MASK)
        ||| (w &&& 0xff) := by
    rw [henable]
    simp [breakpoint_site.disable]
  refine ⟨?_, ?_, ?_, ?_, ?_, ?_, ?_⟩
  · rw [henable]
    exact byteAt_zero_set hcc
  · intro i h1 h7
    rw [henable]
    exact byteAt_high_set hcc h1 h7
  · rw [henable]
  · rw [hdisable, byteAt_zero_set (and_ff_lt w)]
    simp [byteAt]
  · intro i h1 h7
    rw [hdisable, byteAt_high_set (and_ff_lt w) h1 h7]
    exact byteAt_high_set hcc h1 h7
  · intro bp2 w2 h2
    simp [breakpoint_site.enable, h2]
  · intro bp2 w2 h2
    simp [breakpoint_site.disable, h2]

/-- Witness for C3 at a concrete site and word. -/
theorem breakpoint_enable_disable_byte_level_witness :
    byteAt ((breakpoint_site.enable ⟨1, 4096, false, 0⟩ 0x0123456789abcdef).2) 0 = 0xCC ∧
    byteAt (((breakpoint_site.enable ⟨1, 4096, false, 0⟩ 0x0123456789abcdef).1.disable
      (breakpoint_site.enable ⟨1, 4096, false, 0⟩ 0x0123456789abcdef).2)).2 0 =
      byteAt 0x0123456789abcdef 0 :=
  ⟨(breakpoint_enable_disable_byte_level ⟨1, 4096, false, 0⟩ 0x0123456789abcdef rfl).1,
    (breakpoint_enable_disable_byte_level ⟨1, 4096, false, 0⟩ 0x0123456789abcdef rfl).2.2.2.1⟩

/-- The file-local id generators of src/src/breakpoint_site.cpp and
src/src/watchpoint.cpp: a static counter starting at 0, returning its
pre-incremented value. Modelled by explicit state passing of the counter:
returns (new counter state, issued id), both equal to counter + 1. -/
def get_next_id (id_ : Nat) : Nat × Nat := (id_ + 1, id_ + 1)

/-- Modes of a hardware stoppoint (include/libsdb/types.hpp in the full
repository; only the tag matters here). -/
inductive stoppoint_mode where
  | write
  | read_write
  | execute
deriving DecidableEq, Repr

/-- State of sdb::watchpoint (include/libsdb/watchpoint.hpp): id, address,
mode, size, enabled flag. The hardware register index starts out -1 and is
untouched by construction, so it is omitted. -/
structure watchpoint where
  m_id : Nat
  m_address : Nat
  m_mode : stoppoint_mode
  m_size : Nat
  m_is_enabled : Bool
deriving DecidableEq, Repr

/-- sdb::watchpoint::watchpoint (src/src/watchpoint.cpp, lines 12-23): the
member initializers draw a fresh id and store address, mode, size with the
enabled flag false; the body then rejects an address that is not aligned to
the size via the bit test (address & (size - 1)) != 0. The global id
counter is passed and returned explicitly. -/
def watchpoint.construct (counter address : Nat) (mode : stoppoint_mode) (size : Nat) :
    Except String (watchpoint × Nat) :=
  let next := get_next_id counter
  let w : watchpoint := ⟨next.2, address, mode, size, false⟩
  if (address &&& (size - 1)) ≠ 0 then .error "Watchpoint must be aligned to size"
  else .ok (w, next.1)

/-- C4: for size in {1, 2, 4, 8}, watchpoint construction fails with the
library error "Watchpoint must be aligned to size" iff the address is not a
multiple of the size; on success the watchpoint carries the given address,
mode and size and is created disabled. -/
theorem watchpoint_alignment (counter address : Nat) (mode : stoppoint_mode) (size : Nat)
    (hs : size = 1 ∨ size = 2 ∨ size = 4 ∨ size = 8) :
    (watchpoint.construct counter address mode size =
        .error "Watchpoint must be aligned to size" ↔ address % size ≠ 0) ∧
    (∀ w c2, watchpoint.construct counter address mode size = .ok (w, c2) →
      w.m_address = address ∧ w.m_mode = mode ∧ w.m_size = size ∧
      w.m_is_enabled = false) := by
  have hmask : address &&& (size - 1) = address % size := by
    rcases hs with h | h | h | h <;> subst h
    · simp [Nat.mod_one]
    · have h1 : (2 : Nat) - 1 = 2 ^ 1 - 1 := by norm_num
      rw [h1, Nat.and_pow_two_sub_one_eq_mod]
    · have h1 : (4 : Nat) - 1 = 2 ^ 2 - 1 := by norm_num
      rw [h1, Nat.and_pow_two_sub_one_eq_mod]
    · have h1 : (8 : Nat) - 1 = 2 ^ 3 - 1 := by norm_num
      rw [h1, Nat.and_pow_two_sub_one_eq_mod]
  constructor
  · by_cases hmod : address % size = 0
    · simp [watchpoint.construct, hmask, hmod]
    · simp [watchpoint.construct, hmask, hmod]
  · intro w c2 hok
    by_cases hmod : address % size = 0
    · simp only [watchpoint.construct, hmask, hmod] at hok
      simp at hok
      rcases hok with ⟨hw, _⟩
      subst hw
      simp
    · simp [watchpoint.construct, hmask, hmod] at hok

/-- Witness for C4: size 4 at the unaligned address 6 is rejected, and at
the aligned address 8 construction succeeds disabled. -/
theorem watchpoint_alignment_witness :
    (watchpoint.construct 0 6 stoppoint_mode.write 4 =
        .error "Watchpoint must be aligned to size" ↔ 6 % 4 ≠ 0) ∧
    (∀ w c2, watchpoint.construct 0 8 stoppoint_mode.write 4 = .ok (w, c2) →
      w.m_address = 8 ∧ w.m_mode = stoppoint_mode.write ∧ w.m_size = 4 ∧
      w.m_is_enabled = false) :=
  ⟨(watchpoint_alignment 0 6 stoppoint_mode.write 4 (by norm_num)).1,
    (watchpoint_alignment 0 8 stoppoint_mode.write 4 (by norm_num)).2⟩

/-- Digit value of a character as std::from_chars sees it: decimal digits,
then lowercase and uppercase letters counting from 10. Comparisons are on
the character code (Char.toNat). -/
def char_digit (c : Char) : Option Nat :=
  if 48 ≤ c.toNat ∧ c.toNat ≤ 57 then some (c.toNat - 48)
  else if 97 ≤ c.toNat ∧ c.toNat ≤ 122 then some (c.toNat - 97 + 10)
  else if 65 ≤ c.toNat ∧ c.toNat ≤ 90 then some (c.toNat - 65 + 10)
  else none

/-- A digit is accepted by std::from_chars only when its value is below the
base. -/
def from_chars_digit (base : Nat) (c : Char) : Option Nat :=
  match char_digit c with
  | some d => if d < base then some d else none
  | none => none

/-- The consuming loop of std::from_chars for an unsigned integer type:
the pattern is matched greedily, so the maximal prefix of digits of the
base is consumed whatever its value; returned are the mathematical value
of that digit sequence and the unconsumed rest (result.ptr points at its
first character). Whether the value fits the destination type is judged
afterwards, in from_chars below. -/
def from_chars_loop (base : Nat) : List Char → Nat → Nat × List Char
  | [], acc => (acc, [])
  | c :: rest, acc =>
    match from_chars_digit base c with
    | some d => from_chars_loop base rest (acc * base + d)
    | none => (acc, c :: rest)

/-- std::from_chars(begin, end, ret, base) on the character list
[begin, end), for an unsigned destination type whose maximum value is
max_val (the repository instantiates the template at uint8_t through
uint64_t): when no digit is consumed (ec = invalid_argument, ptr = begin)
or the consumed digit sequence exceeds max_val (ec = result_out_of_range,
ptr past the digits), ret is left unmodified — here its indeterminate
prior contents ret0, since sdb::to_integral never initializes it; only an
in-range digit sequence stores its value. The pair returned is
(ret, result.ptr). -/
def from_chars (s : List Char) (base max_val ret0 : Nat) : Nat × List Char :=
  let r := from_chars_loop base s 0
  if r.2.length = s.length then (ret0, r.2)
  else if r.1 ≤ max_val then r
  else (ret0, r.2)

/-- sdb::to_integral (include/libsdb/parse.hpp, lines 11-21): optionally
skip a leading 0x when base is 16, run from_chars, and return nullopt when
result.ptr differs from sv.end(), i.e. when the input was not consumed in
full; otherwise return ret — which the C++ never initializes and
from_chars leaves unmodified on an out-of-range or empty digit sequence,
so those fully-consumed cases return the indeterminate ret0. -/
def to_integral (sv : List Char) (base max_val ret0 : Nat) : Option Nat :=
  let begin_ :=
    if base = 16 ∧ sv.length > 1 ∧ sv.getD 0 ' ' = '0' ∧ sv.getD 1 ' ' = 'x'
    then sv.drop 2 else sv
  let result := from_chars begin_ base max_val ret0
  if result.2 ≠ [] then none else some result.1

/-- A character that the decimal branch of char_digit accepts. -/
def is_decimal_digit (c : Char) : Prop := 48 ≤ c.toNat ∧ c.toNat ≤ 57

instance (c : Char) : Decidable (is_decimal_digit c) := by
  unfold is_decimal_digit
  infer_instance

/-- Value of an all-digit decimal string. -/
def decimal_value (sv : List Char) : Nat :=
  sv.foldl (fun a c => a * 10 + (c.toNat - 48)) 0

theorem from_chars_digit_ten_of_digit {c : Char} (h : is_decimal_digit c) :
    from_chars_digit 10 c = some (c.toNat - 48) := by
  obtain ⟨h1, h2⟩ := h
  have hd : c.toNat - 48 < 10 := by omega
  simp [from_chars_digit, char_digit, h1, h2, hd]

theorem from_chars_digit_ten_of_not_digit {c : Char} (h : ¬is_decimal_digit c) :
    from_chars_digit 10 c = none := by
  unfold from_chars_digit char_digit
  unfold is_decimal_digit at h
  split_ifs with h1 h2 <;> simp_all

theorem from_chars_loop_all_digits (l : List Char) :
    ∀ acc, (∀ c ∈ l, is_decimal_digit c) →
    from_chars_loop 10 l acc = (l.foldl (fun a c => a * 10 + (c.toNat - 48)) acc, []) := by
  induction l with
  | nil => intro acc _; simp [from_chars_loop]
  | cons c rest ih =>
    intro acc h
    have hc := from_chars_digit_ten_of_digit (h c (by simp))
    simp only [from_chars_loop, hc, List.foldl_cons]
    exact ih _ (fun x hx => h x (by simp [hx]))

theorem from_chars_loop_stops (l : List Char) :
    ∀ acc, (∃ c ∈ l, ¬is_decimal_digit c) → (from_chars_loop 10 l acc).2 ≠ [] := by
  induction l with
  | nil => intro acc h; simp at h
  | cons c rest ih =>
    intro acc h
    by_cases hc : is_decimal_digit c
    · have hrest : ∃ x ∈ rest, ¬is_decimal_digit x := by
        rcases h with ⟨x, hx, hnd⟩
        rcases List.mem_cons.mp hx with rfl | hx2
        · exact absurd hc hnd
        · exact ⟨x, hx2, hnd⟩
      simp only [from_chars_loop, from_chars_digit_ten_of_digit hc]
      exact ih _ hrest
    · simp [from_chars_loop, from_chars_digit_ten_of_not_digit hc]

theorem from_chars_rest (s : List Char) (base max_val ret0 : Nat) :
    (from_chars s base max_val ret0).2 = (from_chars_loop base s 0).2 := by
  simp only [from_chars]
  split_ifs <;> rfl

/-- C9 counterexample: the input "42" parses entirely as a number (the
from_chars rest is empty) and is in range for the uint64 instantiation,
yet to_integral returns the value 42 and not nullopt — the source has the
usual sense of the ptr == end test, not the inverted one the claim
describes (the prior ret contents 0 are not consulted in this branch). -/
theorem to_integral_full_consumption_counterexample :
    to_integral ('4' :: '2' :: []) 10 18446744073709551615 0 = some 42 ∧
    (from_chars ('4' :: '2' :: []) 10 18446744073709551615 0).2 = [] := by
  constructor <;> decide

/-- C9 amended: to_integral has the usual sense of the ptr == end test
(shown at base 10 for a nonempty input, for any destination maximum
max_val and any prior ret contents ret0): an input consumed in full as an
in-range number yields the parsed value; an input consumed in full as an
out-of-range number yields the indeterminate prior contents of ret (still
not nullopt); only an input with an unconsumed rest yields nullopt. -/
theorem to_integral_consumption (sv : List Char) (max_val ret0 : Nat) (hne : sv ≠ []) :
    ((∀ c ∈ sv, is_decimal_digit c) → decimal_value sv ≤ max_val →
      to_integral sv 10 max_val ret0 = some (decimal_value sv)) ∧
    ((∀ c ∈ sv, is_decimal_digit c) → ¬decimal_value sv ≤ max_val →
      to_integral sv 10 max_val ret0 = some ret0) ∧
    ((∃ c ∈ sv, ¬is_decimal_digit c) → to_integral sv 10 max_val ret0 = none) := by
  have hlen : sv.length ≠ 0 := by
    intro hc
    exact hne (List.length_eq_zero.mp hc)
  have hlen0 : (0 : Nat) ≠ sv.length := fun hc => hlen hc.symm
  refine ⟨?_, ?_, ?_⟩
  · intro hdig hle
    have hl := from_chars_loop_all_digits sv 0 hdig
    unfold decimal_value at hle
    simp [to_integral, from_chars, hl, hlen0, hle, decimal_value]
  · intro hdig hgt
    have hl := from_chars_loop_all_digits sv 0 hdig
    unfold decimal_value at hgt
    simp [to_integral, from_chars, hl, hlen0, hgt]
  · intro hex
    have hl := from_chars_loop_stops sv 0 hex
    have h2 : (from_chars sv 10 max_val ret0).2 ≠ [] := by
      rw [from_chars_rest]
      exact hl
    simp [to_integral, h2]

/-- Witness for C9 amended at the inputs "42" (all digits, in range for
the uint64 maximum), "99" against the uint-with-maximum-10 destination
with prior ret contents 77 (out of range, the 77 comes back), and "4x"
(unconsumed rest). -/
theorem to_integral_consumption_witness :
    to_integral ('4' :: '2' :: []) 10 18446744073709551615 0 =
      some (decimal_value ('4' :: '2' :: [])) ∧
    to_integral ('9' :: '9' :: []) 10 10 77 = some 77 ∧
    to_integral ('4' :: 'x' :: []) 10 18446744073709551615 0 = none :=
  ⟨(to_integral_consumption ('4' :: '2' :: []) 18446744073709551615 0 (by decide)).1
      (by decide) (by decide),
    (to_integral_consumption ('9' :: '9' :: []) 10 77 (by decide)).2.1
      (by decide) (by decide),
    (to_integral_consumption ('4' :: 'x' :: []) 18446744073709551615 0 (by decide)).2.2
      ⟨'x', by decide, by decide⟩⟩

/-- The process_state enumeration of include/libsdb/process.hpp. -/
inductive process_state where
  | STOPPED
  | RUNNING
  | EXITED
  | TERMINATED
deriving DecidableEq, Repr

/-- Linux SIGTRAP signal number on x86-64. -/
def SIGTRAP : Nat := 5

/-- A waitpid status as classified by the WIFEXITED / WIFSIGNALED /
WIFSTOPPED macros, which are the OS boundary of stop_reason's constructor;
other covers a status none of the three macros accepts. -/
inductive wait_status where
  | exited (code : Nat)
  | signaled (sig : Nat)
  | stopped (sig : Nat)
  | other (raw : Int)
deriving DecidableEq, Repr

/-- sdb::stop_reason (include/libsdb/process.hpp): the new process state
and the uint8 info (exit code or signal number). -/
structure stop_reason where
  reason : process_state
  info : Nat
deriving DecidableEq, Repr

/-- The stop_reason constructor (src/src/process.cpp, lines 14-27): map the
wait status through the three macros in order, truncating info to uint8;
any other status raises the library error about a non-running child. -/
def stop_reason.ofStatus : wait_status → Except String stop_reason
  | .exited code => .ok ⟨process_state.EXITED, code % 256⟩
  | .signaled sig => .ok ⟨process_state.TERMINATED, sig % 256⟩
  | .stopped sig => .ok ⟨process_state.STOPPED, sig % 256⟩
  | .other raw =>
    .error ("Got a wait_status which doesn't represent a non-running child: " ++ toString raw)

/-- find_by_address of stoppoint_collection
(include/libsdb/stoppoint_collection.hpp): std::find_if returns the first
stoppoint whose address matches. -/
def find_by_address (l : List breakpoint_site) (address : Nat) : Option breakpoint_site :=
  l.find? (fun bp => bp.m_address == address)

/-- contains_address of stoppoint_collection. -/
def contains_address (l : List breakpoint_site) (address : Nat) : Bool :=
  (find_by_address l address).isSome

/-- enabled_stoppoint_at_address of stoppoint_collection: a stoppoint at
the address exists and is enabled. -/
def enabled_stoppoint_at_address (l : List breakpoint_site) (address : Nat) : Bool :=
  match find_by_address l address with
  | some bp => bp.m_is_enabled
  | none => false

/-- In-place mutation through the reference returned by get_by_address:
apply f to the first stoppoint at the given address. -/
def update_first_at (l : List breakpoint_site) (address : Nat)
    (f : breakpoint_site → breakpoint_site) : List breakpoint_site :=
  match l with
  | [] => []
  | bp :: rest =>
    if bp.m_address == address then f bp :: rest
    else bp :: update_first_at rest address f

/-- Subtraction on a 64-bit virtual address (include/libsdb/types.hpp,
operator-): uint64 wraparound arithmetic. -/
def vaddr_sub (a b : Nat) : Nat := (a + (2 ^ 64 - b % 2 ^ 64)) % 2 ^ 64

/-- State of sdb::process (include/libsdb/process.hpp and the fields used
by src/src/process.cpp): pid, attachment flag, current state, the cached
rip register (the program counter read and written by get_pc/set_pc) and
the software breakpoint collection. -/
structure process where
  m_pid : Nat
  m_is_attached : Bool
  m_state : process_state
  rip : Nat
  m_breakpoints : List breakpoint_site
deriving DecidableEq, Repr

/-- OS responses consumed by one wait_on_signal call: the waitpid outcome
(none models a waitpid failure), whether the three register reads of
read_all_registers succeed, and the rip value they deliver. -/
structure OsWait where
  waitRes : Option wait_status
  regsOk : Bool
  newPc : Nat
deriving DecidableEq, Repr

/-- sdb::process::wait_on_signal (src/src/process.cpp, lines 101-119):
block on waitpid, translate the status into a stop_reason, record the new
state; when attached and stopped, refresh the register cache (the rip value
comes from the OS) and, if the stop signal is SIGTRAP and an enabled
software breakpoint sits one byte before the refreshed program counter,
rewind the program counter to that address. Errors carry the process state
as mutated so far, since a C++ throw leaves the object's mutations in
place. -/
def process.wait_on_signal (p : process) (os : OsWait) :
    Except (String × process) (process × stop_reason) :=
  match os.waitRes with
  | none => .error ("waitpid failed", p)
  | some status =>
    match stop_reason.ofStatus status with
    | .error e => .error (e, p)
    | .ok reason =>
      if p.m_is_attached = true ∧ reason.reason = process_state.STOPPED then
        if os.regsOk then
          if reason.info = SIGTRAP ∧
              enabled_stoppoint_at_address p.m_breakpoints (vaddr_sub os.newPc 1) = true then
            .ok ({ p with m_state := reason.reason, rip := vaddr_sub os.newPc 1 }, reason)
          else
            .ok ({ p with m_state := reason.reason, rip := os.newPc }, reason)
        else .error ("Could not read GPR registers", { p with m_state := reason.reason })
      else .ok ({ p with m_state := reason.reason }, reason)

/-- Decidable equality for Except results, used to evaluate the embedded
operations at concrete inputs. -/
instance instDecidableEqExcept {e a : Type} [DecidableEq e] [DecidableEq a] :
    DecidableEq (Except e a) := fun x y =>
  match x, y with
  | .error u, .error v =>
    if h : u = v then .isTrue (by rw [h]) else .isFalse (fun hh => h (Except.noConfusion hh id))
  | .ok u, .ok v =>
    if h : u = v then .isTrue (by rw [h]) else .isFalse (fun hh => h (Except.noConfusion hh id))
  | .error _, .ok _ => .isFalse (fun hh => Except.noConfusion hh)
  | .ok _, .error _ => .isFalse (fun hh => Except.noConfusion hh)

/-- C1: whenever wait_on_signal on an attached process returns with state
stopped, the program counter is rewound by exactly one (to the enabled
software breakpoint site one byte before the just-refreshed program
counter) when the stop signal is SIGTRAP and such a site exists; in every
other stopped case it is left as read from the registers. -/
theorem wait_on_signal_pc_rewind (p : process) (os : OsWait) (p2 : process) (r : stop_reason)
    (hok : p.wait_on_signal os = .ok (p2, r))
    (hstop : r.reason = process_state.STOPPED)
    (hatt : p.m_is_attached = true) :
    (r.info = SIGTRAP ∧
        enabled_stoppoint_at_address p.m_breakpoints (vaddr_sub os.newPc 1) = true →
      p2.rip = vaddr_sub os.newPc 1) ∧
    (¬(r.info = SIGTRAP ∧
        enabled_stoppoint_at_address p.m_breakpoints (vaddr_sub os.newPc 1) = true) →
      p2.rip = os.newPc) := by
  cases hres : os.waitRes with
  | none => simp [process.wait_on_signal, hres] at hok
  | some status =>
    cases status with
    | exited code =>
      simp only [process.wait_on_signal, hres, stop_reason.ofStatus] at hok
      rw [if_neg (by simp)] at hok
      simp only [Except.ok.injEq, Prod.mk.injEq] at hok
      obtain ⟨_, hr⟩ := hok
      subst hr
      simp at hstop
    | signaled sig =>
      simp only [process.wait_on_signal, hres, stop_reason.ofStatus] at hok
      rw [if_neg (by simp)] at hok
      simp only [Except.ok.injEq, Prod.mk.injEq] at hok
      obtain ⟨_, hr⟩ := hok
      subst hr
      simp at hstop
    | other raw =>
      simp [process.wait_on_signal, hres, stop_reason.ofStatus] at hok
    | stopped sig =>
      simp only [process.wait_on_signal, hres, stop_reason.ofStatus] at hok
      rw [if_pos ⟨hatt, trivial⟩] at hok
      cases hregs : os.regsOk with
      | false => rw [hregs] at hok; simp at hok
      | true =>
        rw [hregs] at hok
        simp only [if_true] at hok
        by_cases htrap : sig % 256 = SIGTRAP ∧
            enabled_stoppoint_at_address p.m_breakpoints (vaddr_sub os.newPc 1) = true
        · rw [if_pos htrap] at hok
          simp only [Except.ok.injEq, Prod.mk.injEq] at hok
          obtain ⟨hp2, hr⟩ := hok
          subst hr
          constructor
          · intro _
            rw [← hp2]
          · intro hn
            exact absurd htrap hn
        · rw [if_neg htrap] at hok
          simp only [Except.ok.injEq, Prod.mk.injEq] at hok
          obtain ⟨hp2, hr⟩ := hok
          subst hr
          constructor
          · intro hc
            exact absurd hc htrap
          · intro _
            rw [← hp2]

/-- Witness for C1: an attached process with an enabled site at 99 stops on
SIGTRAP with refreshed pc 100; the pc is rewound to 99. -/
theorem wait_on_signal_pc_rewind_witness :
    (process.mk 1234 true process_state.STOPPED 99 [⟨1, 99, true, 0x90⟩]).rip =
      vaddr_sub 100 1 :=
  (wait_on_signal_pc_rewind
      (process.mk 1234 true process_state.STOPPED 0 [⟨1, 99, true, 0x90⟩])
      (OsWait.mk (some (wait_status.stopped 5)) true 100)
      (process.mk 1234 true process_state.STOPPED 99 [⟨1, 99, true, 0x90⟩])
      (stop_reason.mk process_state.STOPPED 5)
      (by decide) (by decide) (by decide)).1 (by decide)

/-- The externally visible actions of resume, in program order: the
breakpoint disable, the PTRACE_SINGLESTEP request, the wait, the
breakpoint re-enable, and the PTRACE_CONT request. -/
inductive trace_event where
  | disable_bp (id : Nat)
  | single_step
  | wait_for_signal
  | enable_bp (id : Nat)
  | ptrace_cont
deriving DecidableEq, Repr

/-- OS responses consumed by one resume call: success of the ptrace
transfers inside bp.disable(), of PTRACE_SINGLESTEP, the wait responses, and
success of the ptrace transfers inside bp.enable() and of PTRACE_CONT. -/
structure OsResume where
  disableOk : Bool
  stepOk : Bool
  wait : OsWait
  enableOk : Bool
  contOk : Bool
deriving DecidableEq, Repr

/-- The software-breakpoint step-over block at the top of
sdb::process::resume (src/src/process.cpp, lines 85-93): when an enabled
software breakpoint sits at the program counter, disable it, single-step,
wait, and re-enable it. The enabled_stoppoint_at_address test is spelled as
find-first-then-check, which is what contains_address plus get_by_address
compute on the collection; the memory side of bp.disable()/bp.enable()
lives at the ptrace boundary (the word patching itself is
breakpoint_site.enable/disable above), so here a call flips the site's
flag and can fail per its oracle flag. Errors carry the process as mutated
so far; on success the event list records the externally visible actions
in order. -/
def process.step_over_bp (p : process) (os : OsResume) :
    Except (String × process) (process × List trace_event) :=
  match find_by_address p.m_breakpoints p.rip with
  | some bp =>
    if bp.m_is_enabled then
      if os.disableOk = false then
        .error ("Disabling breakpoint site failed: Failed to fetch the contents at specified memory location", p)
      else
        let bps1 := update_first_at p.m_breakpoints p.rip (fun b => { b with m_is_enabled := false })
        let p1 := { p with m_breakpoints := bps1 }
        if os.stepOk = false then .error ("Failed a single step", p1)
        else
          match p1.wait_on_signal os.wait with
          | .error (e, p2) => .error (e, p2)
          | .ok (p2, _reason) =>
            if os.enableOk = false then
              .error ("Enabling breakpoint site failed: Failed to fetch the contents at specified memory location", p2)
            else
              let bps2 := update_first_at p2.m_breakpoints p.rip (fun b => { b with m_is_enabled := true })
              .ok ({ p2 with m_breakpoints := bps2 },
                [trace_event.disable_bp bp.m_id, trace_event.single_step,
                  trace_event.wait_for_signal, trace_event.enable_bp bp.m_id])
    else .ok (p, [])
  | none => .ok (p, [])

/-- sdb::process::resume (src/src/process.cpp, lines 84-99): run the
step-over block, then issue PTRACE_CONT and set the state to running. -/
def process.resume (p : process) (os : OsResume) :
    Except (String × process) (process × List trace_event) :=
  match p.step_over_bp os with
  | .error ep => .error ep
  | .ok (p2, tr) =>
    if os.contOk = false then .error ("Could not resume", p2)
    else .ok ({ p2 with m_state := process_state.RUNNING }, tr ++ [trace_event.ptrace_cont])

theorem step_over_bp_trace (p : process) (os : OsResume) (p2 : process) (tr : List trace_event)
    (hok : p.step_over_bp os = .ok (p2, tr)) :
    ∀ bp, find_by_address p.m_breakpoints p.rip = some bp → bp.m_is_enabled = true →
      tr = [trace_event.disable_bp bp.m_id, trace_event.single_step,
        trace_event.wait_for_signal, trace_event.enable_bp bp.m_id] := by
  intro bp hfind hen
  simp only [process.step_over_bp, hfind] at hok
  rw [if_pos hen] at hok
  cases hdis : os.disableOk with
  | false => rw [if_pos hdis] at hok; exact absurd hok (by simp)
  | true =>
    rw [if_neg (by simp [hdis])] at hok
    cases hstep : os.stepOk with
    | false => rw [if_pos hstep] at hok; exact absurd hok (by simp)
    | true =>
      rw [if_neg (by simp [hstep])] at hok
      split at hok
      · exact absurd hok (by simp)
      · cases hen2 : os.enableOk with
        | false => rw [if_pos hen2] at hok; exact absurd hok (by simp)
        | true =>
          rw [if_neg (by simp [hen2])] at hok
          simp only [Except.ok.injEq, Prod.mk.injEq] at hok
          exact hok.2.symm

theorem step_over_bp_no_bp (p : process) (os : OsResume) (p2 : process) (tr : List trace_event)
    (hok : p.step_over_bp os = .ok (p2, tr))
    (hnone : enabled_stoppoint_at_address p.m_breakpoints p.rip = false) :
    p2 = p ∧ tr = [] := by
  unfold enabled_stoppoint_at_address at hnone
  cases hfind : find_by_address p.m_breakpoints p.rip with
  | none =>
    simp only [process.step_over_bp, hfind, Except.ok.injEq, Prod.mk.injEq] at hok
    exact ⟨hok.1.symm, hok.2.symm⟩
  | some bp =>
    rw [hfind] at hnone
    simp only at hnone
    simp only [process.step_over_bp, hfind] at hok
    rw [if_neg (by simp [hnone])] at hok
    simp only [Except.ok.injEq, Prod.mk.injEq] at hok
    exact ⟨hok.1.symm, hok.2.symm⟩

/-- C2: a successful resume from the stopped state ends with the process
running, and when an enabled software breakpoint sits at the program
counter the recorded actions are exactly: disable that breakpoint,
single-step, wait, re-enable that breakpoint, and only then the continue
request. -/
theorem resume_step_over_order (p : process) (os : OsResume) (p2 : process)
    (tr : List trace_event)
    (_hstop : p.m_state = process_state.STOPPED)
    (hok : p.resume os = .ok (p2, tr)) :
    p2.m_state = process_state.RUNNING ∧
    (∀ bp, find_by_address p.m_breakpoints p.rip = some bp → bp.m_is_enabled = true →
      tr = [trace_event.disable_bp bp.m_id, trace_event.single_step,
        trace_event.wait_for_signal, trace_event.enable_bp bp.m_id,
        trace_event.ptrace_cont]) := by
  unfold process.resume at hok
  cases hso : p.step_over_bp os with
  | error ep => rw [hso] at hok; simp only at hok; exact absurd hok (by simp)
  | ok res =>
    obtain ⟨p3, tr3⟩ := res
    rw [hso] at hok
    simp only at hok
    cases hcont : os.contOk with
    | false => rw [if_pos hcont] at hok; exact absurd hok (by simp)
    | true =>
      rw [if_neg (by simp [hcont])] at hok
      simp only [Except.ok.injEq, Prod.mk.injEq] at hok
      obtain ⟨hp2, htr⟩ := hok
      constructor
      · rw [← hp2]
      · intro bp hfind hen
        have h3 := step_over_bp_trace p os p3 tr3 hso bp hfind hen
        rw [← htr, h3]
        rfl

/-- Witness for C2: an enabled site at the program counter 100; all OS
requests succeed and the step-over wait reports a SIGTRAP stop. -/
theorem resume_step_over_order_witness :
    (process.mk 7 true process_state.RUNNING 101
        [⟨1, 100, true, 0x90⟩]).m_state = process_state.RUNNING ∧
    ([trace_event.disable_bp 1, trace_event.single_step, trace_event.wait_for_signal,
        trace_event.enable_bp 1, trace_event.ptrace_cont] : List trace_event) =
      [trace_event.disable_bp 1, trace_event.single_step, trace_event.wait_for_signal,
        trace_event.enable_bp 1, trace_event.ptrace_cont] :=
  ⟨(resume_step_over_order (process.mk 7 true process_state.STOPPED 100 [⟨1, 100, true, 0x90⟩])
      (OsResume.mk true true (OsWait.mk (some (wait_status.stopped 5)) true 101) true true)
      (process.mk 7 true process_state.RUNNING 101 [⟨1, 100, true, 0x90⟩])
      [trace_event.disable_bp 1, trace_event.single_step, trace_event.wait_for_signal,
        trace_event.enable_bp 1, trace_event.ptrace_cont]
      (by decide) (by decide)).1,
    (resume_step_over_order (process.mk 7 true process_state.STOPPED 100 [⟨1, 100, true, 0x90⟩])
      (OsResume.mk true true (OsWait.mk (some (wait_status.stopped 5)) true 101) true true)
      (process.mk 7 true process_state.RUNNING 101 [⟨1, 100, true, 0x90⟩])
      [trace_event.disable_bp 1, trace_event.single_step, trace_event.wait_for_signal,
        trace_event.enable_bp 1, trace_event.ptrace_cont]
      (by decide) (by decide)).2 ⟨1, 100, true, 0x90⟩ (by decide) (by decide)⟩

theorem wait_on_signal_keeps_stopped (p : process) (os : OsWait)
    (hp : p.m_state = process_state.STOPPED)
    (hws : ∀ ws, os.waitRes = some ws → ∃ sig, ws = wait_status.stopped sig) :
    (∀ e p2, p.wait_on_signal os = .error (e, p2) → p2.m_state = process_state.STOPPED) ∧
    (∀ p2 r, p.wait_on_signal os = .ok (p2, r) → p2.m_state = process_state.STOPPED) := by
  cases hres : os.waitRes with
  | none =>
    constructor
    · intro e p2 herr
      simp only [process.wait_on_signal, hres, Except.error.injEq, Prod.mk.injEq] at herr
      rw [← herr.2]
      exact hp
    · intro p2 r hok2
      simp [process.wait_on_signal, hres] at hok2
  | some ws =>
    obtain ⟨sig, rfl⟩ := hws ws hres
    constructor
    · intro e p2 herr
      simp only [process.wait_on_signal, hres, stop_reason.ofStatus] at herr
      by_cases hatt2 : p.m_is_attached = true
      · rw [if_pos ⟨hatt2, trivial⟩] at herr
        cases hregs : os.regsOk with
        | false =>
          rw [hregs] at herr
          simp only [Bool.false_eq_true, if_false, Except.error.injEq, Prod.mk.injEq] at herr
          rw [← herr.2]
        | true =>
          rw [hregs] at herr
          simp only [if_true] at herr
          by_cases htrap : sig % 256 = SIGTRAP ∧
              enabled_stoppoint_at_address p.m_breakpoints (vaddr_sub os.newPc 1) = true
          · rw [if_pos htrap] at herr
            simp at herr
          · rw [if_neg htrap] at herr
            simp at herr
      · rw [if_neg (fun hc => hatt2 hc.1)] at herr
        simp at herr
    · intro p2 r hok2
      simp only [process.wait_on_signal, hres, stop_reason.ofStatus] at hok2
      by_cases hatt2 : p.m_is_attached = true
      · rw [if_pos ⟨hatt2, trivial⟩] at hok2
        cases hregs : os.regsOk with
        | false => rw [hregs] at hok2; simp at hok2
        | true =>
          rw [hregs] at hok2
          simp only [if_true] at hok2
          by_cases htrap : sig % 256 = SIGTRAP ∧
              enabled_stoppoint_at_address p.m_breakpoints (vaddr_sub os.newPc 1) = true
          · rw [if_pos htrap] at hok2
            simp only [Except.ok.injEq, Prod.mk.injEq] at hok2
            rw [← hok2.1]
          · rw [if_neg htrap] at hok2
            simp only [Except.ok.injEq, Prod.mk.injEq] at hok2
            rw [← hok2.1]
      · rw [if_neg (fun hc => hatt2 hc.1)] at hok2
        simp only [Except.ok.injEq, Prod.mk.injEq] at hok2
        rw [← hok2.1]

theorem step_over_bp_keeps_stopped (p : process) (os : OsResume)
    (hstop : p.m_state = process_state.STOPPED)
    (hws : ∀ ws, os.wait.waitRes = some ws → ∃ sig, ws = wait_status.stopped sig) :
    (∀ e p2, p.step_over_bp os = .error (e, p2) → p2.m_state = process_state.STOPPED) ∧
    (∀ p2 tr, p.step_over_bp os = .ok (p2, tr) → p2.m_state = process_state.STOPPED) := by
  cases hfind : find_by_address p.m_breakpoints p.rip with
  | none =>
    constructor
    · intro e p2 h
      simp [process.step_over_bp, hfind] at h
    · intro p2 tr h
      simp only [process.step_over_bp, hfind, Except.ok.injEq, Prod.mk.injEq] at h
      rw [← h.1]
      exact hstop
  | some bp =>
    cases hen : bp.m_is_enabled with
    | false =>
      constructor
      · intro e p2 h
        simp only [process.step_over_bp, hfind] at h
        rw [if_neg (by simp [hen])] at h
        simp at h
      · intro p2 tr h
        simp only [process.step_over_bp, hfind] at h
        rw [if_neg (by simp [hen])] at h
        simp only [Except.ok.injEq, Prod.mk.injEq] at h
        rw [← h.1]
        exact hstop
    | true =>
      cases hdis : os.disableOk with
      | false =>
        constructor
        · intro e p2 h
          simp only [process.step_over_bp, hfind] at h
          rw [if_pos hen, if_pos hdis] at h
          simp only [Except.error.injEq, Prod.mk.injEq] at h
          rw [← h.2]
          exact hstop
        · intro p2 tr h
          simp only [process.step_over_bp, hfind] at h
          rw [if_pos hen, if_pos hdis] at h
          simp at h
      | true =>
        cases hstep : os.stepOk with
        | false =>
          constructor
          · intro e p2 h
            simp only [process.step_over_bp, hfind] at h
            rw [if_pos hen, if_neg (by simp [hdis]), if_pos hstep] at h
            simp only [Except.error.injEq, Prod.mk.injEq] at h
            rw [← h.2]
            exact hstop
          · intro p2 tr h
            simp only [process.step_over_bp, hfind] at h
            rw [if_pos hen, if_neg (by simp [hdis]), if_pos hstep] at h
            simp at h
        | true =>
          have hwl := wait_on_signal_keeps_stopped
            { p with m_breakpoints :=
                update_first_at p.m_breakpoints p.rip (fun b => { b with m_is_enabled := false }) }
            os.wait hstop hws
          constructor
          · intro e p2 h
            simp only [process.step_over_bp, hfind] at h
            rw [if_pos hen, if_neg (by simp [hdis]), if_neg (by simp [hstep])] at h
            cases hw : ({ p with m_breakpoints := update_first_at p.m_breakpoints p.rip (fun b => { b with m_is_enabled := false }) } : process).wait_on_signal os.wait with
            | error ep =>
              obtain ⟨e2, q2⟩ := ep
              rw [hw] at h
              simp only [Except.error.injEq, Prod.mk.injEq] at h
              rw [← h.2]
              exact hwl.1 e2 q2 hw
            | ok res =>
              obtain ⟨q2, r2⟩ := res
              rw [hw] at h
              simp only at h
              cases hen2 : os.enableOk with
              | false =>
                rw [if_pos hen2] at h
                simp only [Except.error.injEq, Prod.mk.injEq] at h
                rw [← h.2]
                exact hwl.2 q2 r2 hw
              | true =>
                rw [if_neg (by simp [hen2])] at h
                simp at h
          · intro p2 tr h
            simp only [process.step_over_bp, hfind] at h
            rw [if_pos hen, if_neg (by simp [hdis]), if_neg (by simp [hstep])] at h
            cases hw : ({ p with m_breakpoints := update_first_at p.m_breakpoints p.rip (fun b => { b with m_is_enabled := false }) } : process).wait_on_signal os.wait with
            | error ep =>
              obtain ⟨e2, q2⟩ := ep
              rw [hw] at h
              simp at h
            | ok res =>
              obtain ⟨q2, r2⟩ := res
              rw [hw] at h
              simp only at h
              cases hen2 : os.enableOk with
              | false =>
                rw [if_pos hen2] at h
                simp at h
              | true =>
                rw [if_neg (by simp [hen2])] at h
                simp only [Except.ok.injEq, Prod.mk.injEq] at h
                rw [← h.1]
                exact hwl.2 q2 r2 hw

/-- C5 counterexample: resume on a stopped process with an enabled
breakpoint at the program counter, where the single-stepped instruction
exits the inferior (the step-over wait reports an exit) and the subsequent
breakpoint re-enable fails: resume raises, but the state observed
afterwards is exited, not stopped. -/
theorem resume_failure_state_counterexample :
    (process.mk 7 true process_state.STOPPED 100 [⟨1, 100, true, 0x90⟩]).m_state =
      process_state.STOPPED ∧
    (process.mk 7 true process_state.STOPPED 100 [⟨1, 100, true, 0x90⟩]).resume
        (OsResume.mk true true (OsWait.mk (some (wait_status.exited 0)) true 200) false true) =
      .error ("Enabling breakpoint site failed: Failed to fetch the contents at specified memory location",
        process.mk 7 true process_state.EXITED 100 [⟨1, 100, false, 0x90⟩]) ∧
    process_state.EXITED ≠ process_state.STOPPED :=
  ⟨rfl, by decide, by decide⟩

/-- C5 amended: a failed resume from the stopped state leaves the state
unchanged at stopped whenever every status the step-over wait observes is a
stop; when that wait instead observes an exit or termination, the state
afterwards reflects that report (see the counterexample). -/
theorem resume_failure_keeps_stopped (p : process) (os : OsResume) (e : String) (p2 : process)
    (hstop : p.m_state = process_state.STOPPED)
    (hws : ∀ ws, os.wait.waitRes = some ws → ∃ sig, ws = wait_status.stopped sig)
    (herr : p.resume os = .error (e, p2)) :
    p2.m_state = process_state.STOPPED := by
  have hso := step_over_bp_keeps_stopped p os hstop hws
  unfold process.resume at herr
  cases hres : p.step_over_bp os with
  | error ep =>
    obtain ⟨e2, q2⟩ := ep
    rw [hres] at herr
    simp only [Except.error.injEq, Prod.mk.injEq] at herr
    rw [← herr.2]
    exact hso.1 e2 q2 hres
  | ok res =>
    obtain ⟨q2, tr2⟩ := res
    rw [hres] at herr
    simp only at herr
    cases hcont : os.contOk with
    | false =>
      rw [if_pos hcont] at herr
      simp only [Except.error.injEq, Prod.mk.injEq] at herr
      rw [← herr.2]
      exact hso.2 q2 tr2 hres
    | true =>
      rw [if_neg (by simp [hcont])] at herr
      simp at herr

/-- Witness for C5 amended: a continue request that fails on a stopped
process without a breakpoint at the program counter leaves the state
stopped. -/
theorem resume_failure_keeps_stopped_witness :
    (process.mk 7 true process_state.STOPPED 50 []).m_state = process_state.STOPPED :=
  resume_failure_keeps_stopped
    (process.mk 7 true process_state.STOPPED 50 [])
    (OsResume.mk true true (OsWait.mk none true 0) true false)
    "Could not resume"
    (process.mk 7 true process_state.STOPPED 50 [])
    (by decide) (fun ws h => nomatch h) (by decide)

/-- sdb::process::create_breakpoint_site (src/src/process.cpp, lines
185-190) together with the breakpoint_site constructor
(src/src/breakpoint_site.cpp, lines 8-17): reject a duplicate address with
the library error whose message appends std::to_string(address) — the
decimal rendering — to the fixed text; otherwise draw a fresh id, append
the new disabled site to the collection and return it. The global id
counter is passed and returned explicitly. -/
def create_breakpoint_site (bps : List breakpoint_site) (counter : Nat) (address : Nat) :
    Except String (List breakpoint_site × Nat × breakpoint_site) :=
  if contains_address bps address then
    .error ("Breakpoint site already created at address " ++ toString address)
  else
    let next := get_next_id counter
    let bp : breakpoint_site := ⟨next.2, address, false, 0⟩
    .ok (bps ++ [bp], next.1, bp)

/-- Modelled from the spec: the hexadecimal rendering of the address that
the specification's error message "Breakpoint site already created at
address <hex>" asks for (lowercase hex digits with a 0x prefix). -/
def hex_render (a : Nat) : String := "0x" ++ (Nat.toDigits 16 a).asString

/-- C6 counterexample: at address 255 the duplicate-site error message
renders the address in decimal ("255"), not hexadecimal ("0xff" or "ff"). -/
theorem create_breakpoint_site_hex_counterexample :
    create_breakpoint_site [⟨1, 255, false, 0⟩] 1 255 =
      .error "Breakpoint site already created at address 255" ∧
    "Breakpoint site already created at address " ++ hex_render 255 =
      "Breakpoint site already created at address 0xff" ∧
    "Breakpoint site already created at address 255" ≠
      "Breakpoint site already created at address 0xff" ∧
    "Breakpoint site already created at address 255" ≠
      "Breakpoint site already created at address ff" :=
  ⟨by decide, by decide, by decide, by decide⟩

/-- C6 amended: a duplicate address raises the library error
"Breakpoint site already created at address <decimal>" with the address
rendered in decimal; otherwise a new site with the given address is
appended to the collection and returned, not enabled, under the freshly
drawn id. -/
theorem create_breakpoint_site_spec (bps : List breakpoint_site) (counter address : Nat) :
    (contains_address bps address = true →
      create_breakpoint_site bps counter address =
        .error ("Breakpoint site already created at address " ++ toString address)) ∧
    (contains_address bps address = false →
      create_breakpoint_site bps counter address =
        .ok (bps ++ [⟨counter + 1, address, false, 0⟩], counter + 1,
          ⟨counter + 1, address, false, 0⟩) ∧
      (⟨counter + 1, address, false, 0⟩ : breakpoint_site).m_is_enabled = false) := by
  constructor
  · intro hct
    simp [create_breakpoint_site, hct]
  · intro hct
    refine ⟨?_, rfl⟩
    simp [create_breakpoint_site, hct, get_next_id]

/-- Witness for C6 amended: the duplicate case at address 255 produces the
decimal message. -/
theorem create_breakpoint_site_spec_witness :
    create_breakpoint_site [⟨1, 255, false, 0⟩] 1 255 =
      .error ("Breakpoint site already created at address " ++ toString 255) :=
  (create_breakpoint_site_spec [⟨1, 255, false, 0⟩] 1 255).1 (by decide)

/-- Run a sequence of create_breakpoint_site calls, returning the list of
ids of the returned sites, the final collection and the final counter;
none when any call fails. -/
def run_creates (bps : List breakpoint_site) (counter : Nat) :
    List Nat → Option (List Nat × List breakpoint_site × Nat)
  | [] => some ([], bps, counter)
  | a :: rest =>
    match create_breakpoint_site bps counter a with
    | .error _ => none
    | .ok (bps2, c2, bp) =>
      match run_creates bps2 c2 rest with
      | none => none
      | some (ids, bfin, cfin) => some (bp.m_id :: ids, bfin, cfin)

theorem create_ok_shape (bps : List breakpoint_site) (counter address : Nat)
    (bps2 : List breakpoint_site) (c2 : Nat) (bp : breakpoint_site)
    (h : create_breakpoint_site bps counter address = .ok (bps2, c2, bp)) :
    c2 = counter + 1 ∧ bp.m_id = counter + 1 := by
  unfold create_breakpoint_site at h
  by_cases hct : contains_address bps address = true
  · rw [if_pos hct] at h
    simp at h
  · rw [if_neg hct] at h
    simp only [get_next_id, Except.ok.injEq, Prod.mk.injEq] at h
    exact ⟨h.2.1.symm, by rw [← h.2.2]⟩

/-- C8: along every successful sequence of create_breakpoint_site calls
the returned ids are strictly increasing, and every issued id exceeds the
counter value the sequence started from, so an id issued earlier (all of
which are at most that counter value) is never reused. -/
theorem create_breakpoint_site_ids_increasing (addrs : List Nat) :
    ∀ bps counter ids bps2 c2,
      run_creates bps counter addrs = some (ids, bps2, c2) →
      List.Chain' (· < ·) ids ∧ (∀ id ∈ ids, counter < id) := by
  induction addrs with
  | nil =>
    intro bps counter ids bps2 c2 h
    simp only [run_creates, Option.some.injEq, Prod.mk.injEq] at h
    rw [← h.1]
    exact ⟨List.chain'_nil, by simp⟩
  | cons a rest ih =>
    intro bps counter ids bps2 c2 h
    cases hcre : create_breakpoint_site bps counter a with
    | error e => simp [run_creates, hcre] at h
    | ok trip =>
      obtain ⟨bpsn, cn, bp⟩ := trip
      obtain ⟨hcn, hbp⟩ := create_ok_shape bps counter a bpsn cn bp hcre
      rw [run_creates, hcre] at h
      simp only at h
      cases hrun : run_creates bpsn cn rest with
      | none => rw [hrun] at h; simp at h
      | some out =>
        obtain ⟨ids3, bfin, cfin⟩ := out
        rw [hrun] at h
        simp only [Option.some.injEq, Prod.mk.injEq] at h
        obtain ⟨hids, -⟩ := h
        obtain ⟨hchain, hgt⟩ := ih bpsn cn ids3 bfin cfin hrun
        subst hcn
        rw [← hids, hbp]
        constructor
        · refine List.chain'_cons'.mpr ⟨?_, hchain⟩
          intro y hy
          exact hgt y (List.mem_of_mem_head? hy)
        · intro id hid
          rcases List.mem_cons.mp hid with rfl | hmem
          · omega
          · have := hgt id hmem
            omega

/-- Witness for C8: creating sites at addresses 10 and 20 from a fresh
state yields the ids 1 and 2, strictly increasing and above the initial
counter. -/
theorem create_breakpoint_site_ids_increasing_witness :
    List.Chain' (· < ·) [1, 2] ∧ (∀ id ∈ [1, 2], 0 < id) :=
  create_breakpoint_site_ids_increasing [10, 20] [] 0 [1, 2]
    [⟨1, 10, false, 0⟩, ⟨2, 20, false, 0⟩] 2 (by decide)

/-- The register_type enumeration of include/libsdb/register_info.hpp. -/
inductive register_type where
  | gpr
  | sub_gpr
  | fpr
  | dr
deriving DecidableEq, Repr

/-- The register_format enumeration of include/libsdb/register_info.hpp. -/
inductive register_format where
  | uint
  | double_float
  | long_double
  | vector
deriving DecidableEq, Repr

/-- The fields of sdb::register_info that registers::read/write consult
(size in bytes, byte offset in the user area, kind, format); the id, name
and DWARF id only serve catalog lookup and are omitted. -/
structure register_info where
  size : Nat
  offset : Nat
  type : register_type
  format : register_format
deriving DecidableEq, Repr

/-- The registers::value variant (include/libsdb/registers.hpp): unsigned
and signed integers of widths 1/2/4/8 and the two byte vectors. The three
floating-point alternatives are not modelled (their widening is a
floating-point cast, outside this development); the claims below concern
the integer paths only. -/
inductive rvalue where
  | u8 (v : Nat)
  | u16 (v : Nat)
  | u32 (v : Nat)
  | u64 (v : Nat)
  | i8 (v : Int)
  | i16 (v : Int)
  | i32 (v : Int)
  | i64 (v : Int)
  | b64 (bs : List Nat)
  | b128 (bs : List Nat)

/-- sizeof of the stored alternative. -/
def rvalue.byte_size : rvalue → Nat
  | .u8 _ => 1
  | .u16 _ => 2
  | .u32 _ => 4
  | .u64 _ => 8
  | .i8 _ => 1
  | .i16 _ => 2
  | .i32 _ => 4
  | .i64 _ => 8
  | .b64 _ => 8
  | .b128 _ => 16

/-- The signed alternatives, with their value and width. -/
def rvalue.signed_val : rvalue → Option (Int × Nat)
  | .i8 t => some (t, 1)
  | .i16 t => some (t, 2)
  | .i32 t => some (t, 4)
  | .i64 t => some (t, 8)
  | _ => none

/-- The C++ conversion of a signed integer to an unsigned type of w bytes:
reduction modulo 2^(8w) (two's complement). -/
def int_to_unsigned (t : Int) (w : Nat) : Nat := (t % ((2 : Int) ^ (8 * w))).toNat

/-- sdb::to_byte128 (include/libsdb/bit.hpp) applied to a w-byte unsigned
value v: its w little-endian bytes followed by zero padding. -/
def to_byte128_of_nat (v w : Nat) : List Nat :=
  natToBytesLE v w ++ List.replicate (16 - w) 0

/-- The signed-integer arm of the widen helper (src/src/registers.cpp,
lines 16-38): for a uint-format register, static_cast the value to the
unsigned type matching the register size (2, 4 or 8 bytes; other sizes
fall through to the default); otherwise reinterpret the value's own bytes. -/
def widen_signed (info : register_info) (t : Int) (w : Nat) : List Nat :=
  if info.format = register_format.uint then
    match info.size with
    | 2 => to_byte128_of_nat (int_to_unsigned t 2) 2
    | 4 => to_byte128_of_nat (int_to_unsigned t 4) 4
    | 8 => to_byte128_of_nat (int_to_unsigned t 8) 8
    | _ => to_byte128_of_nat (int_to_unsigned t w) w
  else to_byte128_of_nat (int_to_unsigned t w) w

/-- The widen helper of src/src/registers.cpp on the modelled alternatives:
signed integers take the branch above, unsigned integers and byte vectors
take the default raw-bytes branch. -/
def widen (info : register_info) (v : rvalue) : List Nat :=
  match v with
  | .i8 t => widen_signed info t 1
  | .i16 t => widen_signed info t 2
  | .i32 t => widen_signed info t 4
  | .i64 t => widen_signed info t 8
  | .u8 t => to_byte128_of_nat t 1
  | .u16 t => to_byte128_of_nat t 2
  | .u32 t => to_byte128_of_nat t 4
  | .u64 t => to_byte128_of_nat t 8
  | .b64 bs => bs.take 8 ++ List.replicate 8 0
  | .b128 bs => bs.take 16

/-- sdb::registers::write (src/src/registers.cpp, lines 62-83) restricted
to its effect on the cached user area, viewed as a byte map: reject a
value wider than the register, otherwise widen it and copy info.size bytes
of the widened buffer to info.offset. The write-through to the kernel
(write_fprs or the aligned write_user_struct word) transmits the updated
cache and does not change it. -/
def registers.write (cache : Nat → Nat) (info : register_info) (val : rvalue) :
    Except String (Nat → Nat) :=
  if val.byte_size ≤ info.size then
    .ok (fun i =>
      if info.offset ≤ i ∧ i < info.offset + info.size
      then (widen info val).getD (i - info.offset) 0 else cache i)
  else .error "sdb::registers::write called with mismatched register and value sizes"

/-- The cache after a successful write (unchanged cache when write fails). -/
def write_cache_after (cache : Nat → Nat) (info : register_info) (val : rvalue) : Nat → Nat :=
  match registers.write cache info val with
  | .ok c2 => c2
  | .error _ => cache

/-- Modelled from the spec: the zero-extension of a w-byte signed value to
size bytes that the claim asserts the write stores — the value's own w
two's-complement bytes followed by zero bytes. -/
def zero_extend_bytes (t : Int) (w size : Nat) : List Nat :=
  natToBytesLE (int_to_unsigned t w) size

theorem natToBytesLE_length (v w : Nat) : (natToBytesLE v w).length = w := by
  simp [natToBytesLE]

theorem natToBytesLE_getD (v w k : Nat) (hk : k < w) :
    (natToBytesLE v w).getD k 0 = byteAt v k := by
  unfold natToBytesLE
  rw [List.getD_eq_getElem?_getD, List.getElem?_map, List.getElem?_range hk]
  rfl

theorem to_byte128_getD (v w k : Nat) (hk : k < w) :
    (to_byte128_of_nat v w).getD k 0 = byteAt v k := by
  unfold to_byte128_of_nat
  rw [List.getD_append]
  · exact natToBytesLE_getD v w k hk
  · rw [natToBytesLE_length]
    exact hk

theorem int_to_unsigned_of_nonneg {t : Int} {w : Nat} (h0 : 0 ≤ t)
    (hlt : t < (2 : Int) ^ (8 * w)) :
    int_to_unsigned t w = t.toNat := by
  unfold int_to_unsigned
  rw [Int.emod_eq_of_lt h0 hlt]

theorem widen_signed_getD (info : register_info) (t : Int) (w k : Nat)
    (hfmt : info.format = register_format.uint)
    (hsize : info.size = 2 ∨ info.size = 4 ∨ info.size = 8) (hk : k < info.size) :
    (widen_signed info t w).getD k 0 = byteAt (int_to_unsigned t info.size) k := by
  rw [widen_signed, if_pos hfmt]
  rcases hsize with h | h | h <;>
    · rw [h] at hk ⊢
      simp only
      exact to_byte128_getD _ _ _ hk

theorem write_uint_widen_core (cache : Nat → Nat) (info : register_info) (val : rvalue)
    (t : Int) (w : Nat)
    (hbs : val.byte_size = w)
    (hwid : widen info val = widen_signed info t w)
    (hfmt : info.format = register_format.uint)
    (hsize : info.size = 2 ∨ info.size = 4 ∨ info.size = 8)
    (hlt : w < info.size)
    (hrange : -((2 : Int) ^ (8 * w - 1)) ≤ t ∧ t < (2 : Int) ^ (8 * w - 1)) :
    (∀ k, k < info.size →
      write_cache_after cache info val (info.offset + k) =
        byteAt (int_to_unsigned t info.size) k) ∧
    (∀ i, i < info.offset ∨ info.offset + info.size ≤ i →
      write_cache_after cache info val i = cache i) ∧
    (0 ≤ t → ∀ k, k < info.size →
      write_cache_after cache info val (info.offset + k) =
        (zero_extend_bytes t w info.size).getD k 0) ∧
    (∀ info2 : register_info, info2.size < val.byte_size →
      registers.write cache info2 val = .error
        "sdb::registers::write called with mismatched register and value sizes") := by
  have hle : val.byte_size ≤ info.size := by omega
  have hwrite : registers.write cache info val = .ok (fun i =>
      if info.offset ≤ i ∧ i < info.offset + info.size
      then (widen info val).getD (i - info.offset) 0 else cache i) := by
    unfold registers.write
    rw [if_pos hle]
  have hafter : ∀ i, write_cache_after cache info val i =
      if info.offset ≤ i ∧ i < info.offset + info.size
      then (widen info val).getD (i - info.offset) 0 else cache i := by
    intro i
    unfold write_cache_after
    rw [hwrite]
  have hbyte : ∀ k, k < info.size →
      write_cache_after cache info val (info.offset + k) =
        byteAt (int_to_unsigned t info.size) k := by
    intro k hk
    rw [hafter, if_pos (by omega), Nat.add_sub_cancel_left, hwid]
    exact widen_signed_getD info t w k hfmt hsize hk
  refine ⟨hbyte, ?_, ?_, ?_⟩
  · intro i hi
    rw [hafter, if_neg (by omega)]
  · intro ht0 k hk
    have hwlt : t < (2 : Int) ^ (8 * w) := by
      refine lt_of_lt_of_le hrange.2 ?_
      exact pow_le_pow_right₀ (by norm_num) (by omega)
    have hslt : t < (2 : Int) ^ (8 * info.size) := by
      refine lt_of_lt_of_le hrange.2 ?_
      exact pow_le_pow_right₀ (by norm_num) (by omega)
    rw [hbyte k hk]
    unfold zero_extend_bytes
    rw [natToBytesLE_getD _ _ _ hk,
      int_to_unsigned_of_nonneg ht0 hslt, int_to_unsigned_of_nonneg ht0 hwlt]
  · intro info2 h2
    unfold registers.write
    rw [if_neg (by omega)]

/-- C7 counterexample: writing the signed byte -1 to a 2-byte uint register
stores 0xFF in the second byte (the static_cast sign-extends when
converting to the wider unsigned type), while the zero-extension of the
value's single byte would leave that byte 0. -/
theorem registers_write_zero_extension_counterexample :
    write_cache_after (fun _ => 0) ⟨2, 0, register_type.gpr, register_format.uint⟩
      (rvalue.i8 (-1)) 1 = 255 ∧
    (zero_extend_bytes (-1) 1 2).getD 1 0 = 0 ∧
    (255 : Nat) ≠ 0 :=
  ⟨by decide, by decide, by decide⟩

/-- C7 amended: for a uint-format register of size 2, 4 or 8 and a signed
integer value strictly narrower than the register, write stores at
info.offset the little-endian bytes of the value reduced modulo
2^(8·info.size) (the C++ conversion to the matching unsigned width, which
sign-extends negative values), leaves all other cache bytes unchanged, and
agrees with the claimed zero-extension exactly when the value is
non-negative; a value wider than the register fails with the
mismatched-sizes error. -/
theorem registers_write_uint_widen (cache : Nat → Nat) (info : register_info) (val : rvalue)
    (t : Int) (w : Nat)
    (hsv : val.signed_val = some (t, w))
    (hfmt : info.format = register_format.uint)
    (hsize : info.size = 2 ∨ info.size = 4 ∨ info.size = 8)
    (hlt : w < info.size)
    (hrange : -((2 : Int) ^ (8 * w - 1)) ≤ t ∧ t < (2 : Int) ^ (8 * w - 1)) :
    (∀ k, k < info.size →
      write_cache_after cache info val (info.offset + k) =
        byteAt (int_to_unsigned t info.size) k) ∧
    (∀ i, i < info.offset ∨ info.offset + info.size ≤ i →
      write_cache_after cache info val i = cache i) ∧
    (0 ≤ t → ∀ k, k < info.size →
      write_cache_after cache info val (info.offset + k) =
        (zero_extend_bytes t w info.size).getD k 0) ∧
    (∀ info2 : register_info, info2.size < val.byte_size →
      registers.write cache info2 val = .error
        "sdb::registers::write called with mismatched register and value sizes") := by
  cases val with
  | i8 t0 =>
    simp only [rvalue.signed_val, Option.some.injEq, Prod.mk.injEq] at hsv
    obtain ⟨rfl, rfl⟩ := hsv
    exact write_uint_widen_core cache info _ t0 1 rfl rfl hfmt hsize hlt hrange
  | i16 t0 =>
    simp only [rvalue.signed_val, Option.some.injEq, Prod.mk.injEq] at hsv
    obtain ⟨rfl, rfl⟩ := hsv
    exact write_uint_widen_core cache info _ t0 2 rfl rfl hfmt hsize hlt hrange
  | i32 t0 =>
    simp only [rvalue.signed_val, Option.some.injEq, Prod.mk.injEq] at hsv
    obtain ⟨rfl, rfl⟩ := hsv
    exact write_uint_widen_core cache info _ t0 4 rfl rfl hfmt hsize hlt hrange
  | i64 t0 =>
    simp only [rvalue.signed_val, Option.some.injEq, Prod.mk.injEq] at hsv
    obtain ⟨rfl, rfl⟩ := hsv
    exact write_uint_widen_core cache info _ t0 8 rfl rfl hfmt hsize hlt hrange
  | u8 t0 => simp [rvalue.signed_val] at hsv
  | u16 t0 => simp [rvalue.signed_val] at hsv
  | u32 t0 => simp [rvalue.signed_val] at hsv
  | u64 t0 => simp [rvalue.signed_val] at hsv
  | b64 bs => simp [rvalue.signed_val] at hsv
  | b128 bs => simp [rvalue.signed_val] at hsv

/-- Witness for C7 amended: writing the signed byte -2 to the 8-byte uint
register at offset 16 stores the low byte 0xFE there. -/
theorem registers_write_uint_widen_witness :
    write_cache_after (fun _ => 0) ⟨8, 16, register_type.gpr, register_format.uint⟩
      (rvalue.i8 (-2)) (16 + 0) = byteAt (int_to_unsigned (-2) 8) 0 :=
  (registers_write_uint_widen (fun _ => 0) ⟨8, 16, register_type.gpr, register_format.uint⟩
    (rvalue.i8 (-2)) (-2) 1 rfl rfl (by norm_num) (by norm_num)
    (by constructor <;> norm_num)).1 0 (by norm_num)

/-- sdb::process::read_memory (src/src/process.cpp, lines 213-231)
restricted to its result: the amount bytes of inferior memory starting at
the address (the page-chunked vectored read returns exactly these bytes). -/
def read_memory (mem : Nat → Nat) (address amount : Nat) : List Nat :=
  (List.range amount).map (fun i => mem (address + i))

/-- A PTRACE_POKEDATA of one 8-byte word (given as its little-endian byte
list) at the given address. -/
def poke_word (mem : Nat → Nat) (address : Nat) (word : List Nat) : Nat → Nat :=
  fun i => if address ≤ i ∧ i < address + 8 then word.getD (i - address) 0 else mem i

/-- The loop of sdb::process::write_memory (src/src/process.cpp, lines
233-251): while bytes remain, build the next 8-byte word — taken straight
from the data when at least 8 bytes remain, otherwise the remaining data
bytes spliced with the read-back tail of the current word — poke it, and
advance by 8. -/
def write_memory_loop (mem : Nat → Nat) (address : Nat) (data : List Nat) (written : Nat) :
    Nat → Nat :=
  if h : written < data.length then
    let remaining := data.length - written
    let word :=
      if 8 ≤ remaining then (data.drop written).take 8
      else (data.drop written).take remaining ++
        (read_memory mem (address + written) 8).drop remaining
    write_memory_loop (poke_word mem (address + written) word) address data (written + 8)
  else mem
termination_by data.length - written

/-- sdb::process::write_memory: run the loop from written = 0. -/
def write_memory (mem : Nat → Nat) (address : Nat) (data : List Nat) : Nat → Nat :=
  write_memory_loop mem address data 0

theorem drop_take_getD (data : List Nat) (written n k : Nat) (hk : k < n) :
    ((data.drop written).take n).getD k 0 = data.getD (written + k) 0 := by
  rw [List.getD_eq_getElem?_getD, List.getD_eq_getElem?_getD,
    List.getElem?_take_of_lt hk, List.getElem?_drop]

theorem drop_getD (l : List Nat) (n k : Nat) :
    (l.drop n).getD k 0 = l.getD (n + k) 0 := by
  rw [List.getD_eq_getElem?_getD, List.getD_eq_getElem?_getD, List.getElem?_drop]

theorem read_memory_getD (mem : Nat → Nat) (a n k : Nat) (hk : k < n) :
    (read_memory mem a n).getD k 0 = mem (a + k) := by
  unfold read_memory
  rw [List.getD_eq_getElem?_getD, List.getElem?_map, List.getElem?_range hk]
  rfl

theorem read_memory_length (mem : Nat → Nat) (a n : Nat) :
    (read_memory mem a n).length = n := by
  simp [read_memory]

theorem write_memory_loop_spec (data : List Nat) (address : Nat) :
    ∀ fuel written mem, data.length - written ≤ fuel →
      (∀ i, written ≤ i → i < data.length →
        write_memory_loop mem address data written (address + i) = data.getD i 0) ∧
      (∀ j, j < address + written → write_memory_loop mem address data written j = mem j) ∧
      (∀ j, address + data.length ≤ j → write_memory_loop mem address data written j = mem j) := by
  intro fuel
  induction fuel with
  | zero =>
    intro written mem hf
    have hge : ¬written < data.length := by omega
    rw [write_memory_loop, dif_neg hge]
    exact ⟨fun i hi1 hi2 => by omega, fun j _ => rfl, fun j _ => rfl⟩
  | succ fuel ih =>
    intro written mem hf
    by_cases hw : written < data.length
    · by_cases hrem : 8 ≤ data.length - written
      · have hstep : write_memory_loop mem address data written =
            write_memory_loop
              (poke_word mem (address + written) ((data.drop written).take 8))
              address data (written + 8) := by
          conv_lhs => rw [write_memory_loop]
          rw [dif_pos hw]
          simp only
          rw [if_pos hrem]
        obtain ⟨ih1, ih2, ih3⟩ := ih (written + 8)
          (poke_word mem (address + written) ((data.drop written).take 8)) (by omega)
        refine ⟨?_, ?_, ?_⟩
        · intro i hi1 hi2
          rw [hstep]
          by_cases hi8 : written + 8 ≤ i
          · exact ih1 i hi8 hi2
          · rw [ih2 _ (by omega)]
            unfold poke_word
            rw [if_pos (by omega)]
            have hidx : address + i - (address + written) = i - written := by omega
            rw [hidx, drop_take_getD data written 8 (i - written) (by omega)]
            have : written + (i - written) = i := by omega
            rw [this]
        · intro j hj
          rw [hstep, ih2 _ (by omega)]
          unfold poke_word
          rw [if_neg (by omega)]
        · intro j hj
          rw [hstep, ih3 _ hj]
          unfold poke_word
          rw [if_neg (by omega)]
      · have hstep : write_memory_loop mem address data written =
            write_memory_loop
              (poke_word mem (address + written)
                ((data.drop written).take (data.length - written) ++
                  (read_memory mem (address + written) 8).drop (data.length - written)))
              address data (written + 8) := by
          conv_lhs => rw [write_memory_loop]
          rw [dif_pos hw]
          simp only
          rw [if_neg hrem]
        have hlow : ((data.drop written).take (data.length - written)).length =
            data.length - written := by
          simp [List.length_take, List.length_drop]
        obtain ⟨ih1, ih2, ih3⟩ := ih (written + 8)
          (poke_word mem (address + written)
            ((data.drop written).take (data.length - written) ++
              (read_memory mem (address + written) 8).drop (data.length - written)))
          (by omega)
        refine ⟨?_, ?_, ?_⟩
        · intro i hi1 hi2
          rw [hstep]
          by_cases hi8 : written + 8 ≤ i
          · exact ih1 i hi8 hi2
          · rw [ih2 _ (by omega)]
            unfold poke_word
            rw [if_pos (by omega)]
            have hidx : address + i - (address + written) = i - written := by omega
            rw [hidx, List.getD_append _ _ _ _ (by omega), drop_take_getD data written
              (data.length - written) (i - written) (by omega)]
            have : written + (i - written) = i := by omega
            rw [this]
        · intro j hj
          rw [hstep, ih2 _ (by omega)]
          unfold poke_word
          rw [if_neg (by omega)]
        · intro j hj
          rw [hstep, ih3 _ hj]
          unfold poke_word
          by_cases hin : address + written ≤ j ∧ j < address + written + 8
          · rw [if_pos hin]
            rw [List.getD_append_right _ _ _ _ (by omega)]
            have hrdlen : (read_memory mem (address + written) 8).length = 8 :=
              read_memory_length mem (address + written) 8
            rw [drop_getD]
            have hidx2 : data.length - written +
                (j - (address + written) - ((data.drop written).take
                  (data.length - written)).length) = j - (address + written) := by
              rw [hlow]
              omega
            rw [hidx2, read_memory_getD mem (address + written) 8
              (j - (address + written)) (by omega)]
            have : address + written + (j - (address + written)) = j := by omega
            rw [this]
          · rw [if_neg hin]
    · have hge : ¬written < data.length := hw
      rw [write_memory_loop, dif_neg hge]
      exact ⟨fun i hi1 hi2 => by omega, fun j _ => rfl, fun j _ => rfl⟩

/-- C10: a successful write_memory of n bytes (n not a multiple of 8)
stores exactly the data bytes at [address, address+n); the bytes of the
final word's tail [address+n, address + 8*ceil(n/8)) — written as part of
the whole last word — keep the values they had before the write, because
the trailing sub-word is spliced from a read-back of target memory; and
memory outside the poked range is untouched. -/
theorem write_memory_tail_preserved (mem : Nat → Nat) (address : Nat) (data : List Nat)
    (_hmod : data.length % 8 ≠ 0) :
    (∀ i, i < data.length → write_memory mem address data (address + i) = data.getD i 0) ∧
    (∀ i, data.length ≤ i → i < 8 * ((data.length + 7) / 8) →
      write_memory mem address data (address + i) = mem (address + i)) ∧
    (∀ j, j < address → write_memory mem address data j = mem j) ∧
    (∀ j, address + data.length ≤ j → write_memory mem address data j = mem j) := by
  obtain ⟨h1, h2, h3⟩ :=
    write_memory_loop_spec data address data.length 0 mem (by omega)
  refine ⟨?_, ?_, ?_, ?_⟩
  · intro i hi
    exact h1 i (by omega) hi
  · intro i hi1 _hi2
    exact h3 (address + i) (by omega)
  · intro j hj
    exact h2 j (by omega)
  · intro j hj
    exact h3 j hj

/-- Witness for C10 at data [1, 2, 3] written to address 32 over the
constant-9 memory: byte 0 becomes 1, and byte 5 — inside the written last
word but beyond the data — stays 9. -/
theorem write_memory_tail_preserved_witness :
    write_memory (fun _ => 9) 32 [1, 2, 3] (32 + 0) = ([1, 2, 3] : List Nat).getD 0 0 ∧
    write_memory (fun _ => 9) 32 [1, 2, 3] (32 + 5) = 9 :=
  ⟨(write_memory_tail_preserved (fun _ => 9) 32 [1, 2, 3] (by decide)).1 0 (by decide),
    (write_memory_tail_preserved (fun _ => 9) 32 [1, 2, 3] (by decide)).2.1 5
      (by decide) (by decide)⟩
